import Mathlib

/-!
Verification development for the BigFiles CSV generator/processor
(src/generator.ts and src/main.ts).

Modelling conventions, used consistently below:
* JS numbers are modelled as exact rationals (ℚ) or integers (ℤ/ℕ); where a JS
  parse failure produces NaN, the value is modelled as an Option with none for NaN.
* JS strings are modelled as lists of characters (List Char); string
  concatenation is list append, and the default string ordering used by
  localeCompare on these plain ASCII keys is the lexicographic order on
  character codes.
* The JS Map is modelled as an association list in insertion order: setting a
  fresh key appends it at the end, setting an existing key rewrites its value
  in place.
* Math.random() draws are abstracted as an oracle of rationals in [0, 1).
* The runtime timezone is a parameter: tz is the local offset east of UTC in
  minutes; the local-time Date constructor and the UTC toISOString both appear
  in generator.ts, so the offset is observable in its output.
-/

/- Batteries marks the Rat field operations irreducible, which blocks the
   decide tactic from evaluating concrete rational arithmetic; restore the
   default reducibility so concrete runs of the embedded code can be checked
   by the kernel. -/
set_option allowUnsafeReducibility true in
attribute [semireducible] Rat.add Rat.mul Rat.inv Rat.sub Rat.div Rat.ofScientific

/-! ## JS primitives: numbers to strings -/

/-- One decimal digit as a character. -/
def digitChar (d : ℕ) : Char := Char.ofNat (48 + d)

/-- Accumulator loop for decimal rendering; fuel bounds the digit count. -/
def natToCharsAux : ℕ → ℕ → List Char → List Char
  | 0, _, acc => acc
  | fuel + 1, n, acc =>
    if n < 10 then digitChar n :: acc
    else natToCharsAux fuel (n / 10) (digitChar (n % 10) :: acc)

/-- Decimal rendering of a natural number, as JS template interpolation
    renders an integral number value. -/
def natToChars (n : ℕ) : List Char := natToCharsAux (n + 1) n []

/-- Decimal rendering of an integer (JS template interpolation). -/
def intToChars (i : ℤ) : List Char :=
  if i < 0 then '-' :: natToChars i.natAbs else natToChars i.natAbs

/-- The padStart(2, "0") applied by main.ts to a month number. -/
def pad2 (n : ℕ) : List Char :=
  if n < 10 then '0' :: natToChars n else natToChars n

/-- Floor of a rational (the value JS Math.floor returns on our exact model). -/
def ratFloor (q : ℚ) : ℤ := q.num.fdiv (q.den : ℤ)

theorem ratFloor_eq_floor (q : ℚ) : ratFloor q = ⌊q⌋ := by
  rw [Rat.floor_def]
  unfold ratFloor
  rw [Int.fdiv_eq_ediv _ (by positivity)]

/-! ## Calendar arithmetic

The JS Date object stores an absolute number of milliseconds and converts to
and from proleptic-Gregorian civil fields; the conversions below are the
standard civil-calendar algorithms on a day count relative to 1970-01-01. -/

/-- Gregorian leap-year rule (as used by the JS Date object). -/
def isLeapYear (y : ℤ) : Bool := (y % 4 == 0 && y % 100 != 0) || y % 400 == 0

/-- Number of days in a month; this models the expression
    new Date(year, month, 0).getDate() in generator.ts randomDate. -/
def daysInMonth (y m : ℤ) : ℤ :=
  if m = 2 then (if isLeapYear y then 29 else 28)
  else if m = 4 ∨ m = 6 ∨ m = 9 ∨ m = 11 then 30
  else 31

/-- Day count since 1970-01-01 of a civil date (proleptic Gregorian). -/
def daysFromCivil (y m d : ℤ) : ℤ :=
  let y' := if m ≤ 2 then y - 1 else y
  let era := y'.fdiv 400
  let yoe := y' - era * 400
  let mp := if m > 2 then m - 3 else m + 9
  let doy := (153 * mp + 2).fdiv 5 + d - 1
  let doe := yoe * 365 + yoe.fdiv 4 - yoe.fdiv 100 + doy
  era * 146097 + doe - 719468

/-- Civil date (year, month, day) of a day count since 1970-01-01. -/
def civilFromDays (z : ℤ) : ℤ × ℤ × ℤ :=
  let z' := z + 719468
  let era := z'.fdiv 146097
  let doe := z' - era * 146097
  let yoe := (doe - doe.fdiv 1460 + doe.fdiv 36524 - doe.fdiv 146096).fdiv 365
  let y := yoe + era * 400
  let doy := doe - (365 * yoe + yoe.fdiv 4 - yoe.fdiv 100)
  let mp := (5 * doy + 2).fdiv 153
  let d := doy - (153 * mp + 2).fdiv 5 + 1
  let m := if mp < 10 then mp + 3 else mp - 9
  (if m ≤ 2 then y + 1 else y, m, d)

/-- Seconds since the epoch of civil fields read in a fixed reference frame. -/
def fieldsToEpoch (y m d h mi s : ℤ) : ℤ :=
  86400 * daysFromCivil y m d + 3600 * h + 60 * mi + s

/-- The year component printed by toISOString for an absolute time in seconds. -/
def isoYear (t : ℤ) : ℤ := (civilFromDays (t.fdiv 86400)).1

/-- Left-pad a digit string to four characters (toISOString year field). -/
def pad4 (n : ℕ) : List Char :=
  List.replicate (4 - (natToChars n).length) '0' ++ natToChars n

/-- The full toISOString rendering of an absolute time in whole seconds
    (milliseconds are always zero in this pipeline). -/
def isoStringOfEpoch (t : ℤ) : List Char :=
  let z := t.fdiv 86400
  let c := civilFromDays z
  let sec := t - 86400 * z
  pad4 c.1.toNat ++ '-' :: pad2 c.2.1.toNat ++ '-' :: pad2 c.2.2.toNat ++
    'T' :: pad2 (sec.fdiv 3600).toNat ++ ':' :: pad2 ((sec.fdiv 60) % 60).toNat ++
    ':' :: pad2 (sec % 60).toNat ++ ".000Z".data

/-! ## Generator (src/generator.ts) -/

/-- The Math.random() draws consumed while synthesizing one record. -/
structure RecordDraws where
  orderR : ℚ
  custR : ℚ
  totalR : ℚ
  yearR : ℚ
  monthR : ℚ
  dayR : ℚ
  hourR : ℚ
  minuteR : ℚ
  secondR : ℚ

/-- generator.ts randomInt: Math.floor(Math.random() * (max - min + 1)) + min. -/
def randomInt (lo hi : ℤ) (r : ℚ) : ℤ :=
  ratFloor (r * ((hi : ℚ) - (lo : ℚ) + 1)) + lo

/-- generator.ts randomFloat with 2 decimals:
    parseFloat((Math.random() * (max - min) + min).toFixed(2)), i.e. the raw
    uniform value rounded to the nearest multiple of 1/100 (ties upward). -/
def randomFloat (lo hi : ℚ) (r : ℚ) : ℚ :=
  (ratFloor ((r * (hi - lo) + lo) * 100 + 1 / 2) : ℚ) / 100

/-- generator.ts randomDate: draw year/month/day/hour/minute/second, build a
    Date with the local-time constructor new Date(y, m - 1, d, h, mi, s)
    (tz = local offset east of UTC in minutes) and render it with the UTC
    serializer toISOString. -/
def randomDate (tz : ℤ) (w : RecordDraws) : List Char :=
  let year := randomInt 2020 2025 w.yearR
  let month := randomInt 1 12 w.monthR
  let day := randomInt 1 (daysInMonth year month) w.dayR
  let hour := randomInt 0 23 w.hourR
  let minute := randomInt 0 59 w.minuteR
  let second := randomInt 0 59 w.secondR
  isoStringOfEpoch (fieldsToEpoch year month day hour minute second - 60 * tz)

/-- The epoch second the record's date serializes (the toISOString input). -/
def randomDateEpoch (tz : ℤ) (w : RecordDraws) : ℤ :=
  fieldsToEpoch (randomInt 2020 2025 w.yearR) (randomInt 1 12 w.monthR)
    (randomInt 1 (daysInMonth (randomInt 2020 2025 w.yearR) (randomInt 1 12 w.monthR)) w.dayR)
    (randomInt 0 23 w.hourR) (randomInt 0 59 w.minuteR) (randomInt 0 59 w.secondR) - 60 * tz

/-- One synthesized sales record (generator side). -/
structure GenRecord where
  id : ℕ
  order_id : ℤ
  customer_id : ℤ
  total : ℚ
  date : List Char
deriving DecidableEq

/-- The record generateBatch builds for a given id from the oracle's draws. -/
def mkRecord (tz : ℤ) (oracle : ℕ → RecordDraws) (i : ℕ) : GenRecord :=
  { id := i
    order_id := randomInt 100000 999999 (oracle i).orderR
    customer_id := randomInt 1 50000 (oracle i).custR
    total := randomFloat 500 1800 (oracle i).totalR
    date := randomDate tz (oracle i) }

/-- generator.ts generateBatch(startId, count). -/
def generateBatch (tz : ℤ) (oracle : ℕ → RecordDraws) (startId count : ℕ) : List GenRecord :=
  (List.range count).map (fun j => mkRecord tz oracle (startId + j))

/-- JS default number-to-string rendering, restricted to the nonnegative
    exact multiples of 1/100 the generator produces: the shortest decimal
    form, so trailing fractional zeros are not printed. -/
def ratToChars (q : ℚ) : List Char :=
  let n := (q * 100).num.toNat
  if n % 100 = 0 then natToChars (n / 100)
  else if n % 10 = 0 then natToChars (n / 100) ++ '.' :: natToChars (n / 10 % 10)
  else natToChars (n / 100) ++ '.' :: (natToChars (n / 10 % 10) ++ natToChars (n % 10))

/-- The header line both components agree on. -/
def headerLine : List Char := "id,order_id,customer_id,total,date\n".data

/-- One data line of generator.ts recordsToCSV (template interpolation of the
    five fields, comma-separated, newline-terminated). -/
def recordLine (r : GenRecord) : List Char :=
  natToChars r.id ++ ',' :: intToChars r.order_id ++ ',' :: intToChars r.customer_id ++
    ',' :: ratToChars r.total ++ ',' :: r.date ++ ['\n']

/-- generator.ts recordsToCSV (optional header, then one line per record,
    accumulated left to right). -/
def recordsToCSV (records : List GenRecord) (includeHeader : Bool) : List Char :=
  records.foldl (fun acc r => acc ++ recordLine r)
    (if includeHeader then headerLine else [])

/-- The batch loop of generator.ts generate(): while processed < totalRecords,
    emit a batch of min(batchSize, totalRecords - processed) records with ids
    processed+1 .. processed+currentBatchSize, then advance. The fuel argument
    only bounds the iteration count: every productive iteration emits at least
    one record, so totalRecords iterations always suffice (the completeness
    theorem below proves the output is whole). -/
def generateLoop (tz : ℤ) (oracle : ℕ → RecordDraws) (totalRecords batchSize : ℕ) :
    ℕ → ℕ → List GenRecord
  | 0, _ => []
  | fuel + 1, processed =>
    if processed < totalRecords then
      generateBatch tz oracle (processed + 1) (min batchSize (totalRecords - processed)) ++
        generateLoop tz oracle totalRecords batchSize fuel
          (processed + min batchSize (totalRecords - processed))
    else []

/-- All records generator.ts generate() emits, in emission order. -/
def generateRecords (tz : ℤ) (oracle : ℕ → RecordDraws) (totalRecords batchSize : ℕ) :
    List GenRecord :=
  generateLoop tz oracle totalRecords batchSize totalRecords 0

/-- The lines of the file generate() writes: the header line written first,
    then every emitted record's CSV line, batch by batch. -/
def generateLines (tz : ℤ) (oracle : ℕ → RecordDraws) (totalRecords batchSize : ℕ) :
    List (List Char) :=
  headerLine :: (generateRecords tz oracle totalRecords batchSize).map recordLine

-- sanity checks of the calendar model on known dates
theorem daysFromCivil_epoch : daysFromCivil 1970 1 1 = 0 := by decide
theorem civilFromDays_epoch : civilFromDays 0 = (1970, 1, 1) := by decide
theorem civilFromDays_sample : civilFromDays 18262 = (2020, 1, 1) := by decide

/-! ## Aggregator (src/main.ts), well-parsed records -/

/-- Calendar decomposition of a record's date as main.ts processSalesRecord
    reads it: new Date(record.date).getFullYear() and .getMonth() + 1, with the
    processor running in the UTC frame the dates were serialized in. -/
structure RecDate where
  year : ℤ
  month : ℕ
deriving DecidableEq

/-- A parsed input row (main.ts SalesRecord) whose fields all parsed. -/
structure SalesRecord where
  id : ℤ
  order_id : ℤ
  customer_id : ℤ
  total : ℚ
  date : RecDate
deriving DecidableEq

/-- Running statistics of one month bucket (main.ts SalesStats). The source
    struct also carries salesAverage and standardDeviation fields that remain 0
    until finalization; finalization is modelled below as producing a
    SalesReportRecord, so the running struct omits them. -/
structure SalesStats where
  year : ℤ
  month : ℕ
  numberOfOrders : ℕ
  maxAmount : ℚ
  minAmount : ℚ
  totalAmount : ℚ
  amounts : List ℚ
deriving DecidableEq

/-- The JS Map from key string to bucket, in insertion order. -/
abbrev StatsMap := List (List Char × SalesStats)

/-- The bucket key built at main.ts line 75:
    year + "-" + String(month).padStart(2, "0"). -/
def monthKey (y : ℤ) (m : ℕ) : List Char := intToChars y ++ '-' :: pad2 m

/-- The key of the bucket a record folds into. -/
def recKey (r : SalesRecord) : List Char := monthKey r.date.year r.date.month

/-- Map lookup (JS Map.get / Map.has), for both the running and the
    finalized bucket map. -/
def findStats {β : Type} : List (List Char × β) → List Char → Option β
  | [], _ => none
  | e :: m, k => if e.1 = k then some e.2 else findStats m k

/-- The fresh bucket main.ts creates on first sight of a key: zero counters,
    both extrema initialized to the incoming record's total. -/
def initStats (y : ℤ) (m : ℕ) (t : ℚ) : SalesStats :=
  ⟨y, m, 0, t, t, 0, []⟩

/-- The per-record bucket update of main.ts processSalesRecord lines 92-96. -/
def updateStats (t : ℚ) (s : SalesStats) : SalesStats :=
  { s with
    numberOfOrders := s.numberOfOrders + 1
    totalAmount := s.totalAmount + t
    maxAmount := max s.maxAmount t
    minAmount := min s.minAmount t
    amounts := s.amounts ++ [t] }

/-- main.ts processSalesRecord: ensure the bucket exists (Map.set appends a
    fresh key at the end of the map), then update it in place. -/
def processSalesRecord (r : SalesRecord) (m : StatsMap) : StatsMap :=
  let key := recKey r
  let m1 := if (findStats m key).isSome then m
            else m ++ [(key, initStats r.date.year r.date.month r.total)]
  m1.map (fun e => if e.1 = key then (e.1, updateStats r.total e.2) else e)

/-- The streaming pass of main.ts process(): fold every parsed row into the
    bucket map, starting from the empty map, in input order. -/
def foldRecords (rs : List SalesRecord) : StatsMap :=
  rs.foldl (fun m r => processSalesRecord r m) []

/-- main.ts calculateStandardDeviation computes the square root of this
    quantity (sample variance with Bessel's correction; 0 when the bucket
    holds at most one value). The development carries the squared value since
    the square root of a rational is irrational in general; square-root facts
    are stated through IsSqrt below. -/
def sampleVariance (values : List ℚ) (mean : ℚ) : ℚ :=
  if values.length ≤ 1 then 0
  else ((values.map fun v => (v - mean) * (v - mean)).sum) / ((values.length : ℚ) - 1)

/-- s is the (nonnegative) square root of x. -/
def IsSqrt (x s : ℚ) : Prop := 0 ≤ s ∧ s * s = x

/-- A finalized report row (main.ts SalesReportRecord). varianceB carries the
    square of the published standard_deviation; the amounts list is dropped
    here, mirroring the delete in finalizeStats. -/
structure SalesReportRecord where
  year : ℤ
  month : ℕ
  numberOfOrders : ℕ
  maxAmount : ℚ
  minAmount : ℚ
  salesAverage : ℚ
  varianceB : ℚ
deriving DecidableEq

/-- main.ts finalizeStats for one bucket: salesAverage = totalAmount divided
    by numberOfOrders, standard deviation from the retained amounts, then the
    amounts array is deleted. -/
def finalizeRecord (s : SalesStats) : SalesReportRecord :=
  let avg := s.totalAmount / (s.numberOfOrders : ℚ)
  ⟨s.year, s.month, s.numberOfOrders, s.maxAmount, s.minAmount, avg,
    sampleVariance s.amounts avg⟩

/-- The finalized map: finalizeStats runs over every bucket in place. -/
def finalizeMap (m : StatsMap) : List (List Char × SalesReportRecord) :=
  m.map fun e => (e.1, finalizeRecord e.2)

/-- main.ts statsToCSV sorts the map entries with
    keyA.localeCompare(keyB), the lexicographic character order on these
    ASCII keys; the JS sort is stable and the keys are distinct, so the
    stable insertion sort is an exact model. -/
def sortEntries (m : List (List Char × SalesReportRecord)) :
    List (List Char × SalesReportRecord) :=
  List.insertionSort (fun a b => a.1 ≤ b.1) m

/-- The report rows process() serializes, in file order. -/
def reportRows (rs : List SalesRecord) : List SalesReportRecord :=
  (sortEntries (finalizeMap (foldRecords rs))).map (fun e => e.2)

/-- main.ts getMonthName: the twelve English month names, 1-indexed. -/
def getMonthName (m : ℕ) : List Char :=
  (["January", "February", "March", "April", "May", "June", "July", "August",
    "September", "October", "November", "December"].map String.data).getD (m - 1) []

/-- The summary main.ts getStats() reports. -/
structure SummaryStats where
  totalMonths : ℕ
  yearRange : List Char
  totalRecordsProcessed : ℕ
deriving DecidableEq

/-- main.ts getStats (lines 242-258): an empty bucket map short-circuits to
    zeroes and the empty string; otherwise Math.min/Math.max over the bucket
    years (modelled as folds over the nonempty year list) and the sum of the
    per-bucket order counts. -/
def getStats (m : StatsMap) : SummaryStats :=
  if m.length = 0 then ⟨0, [], 0⟩
  else
    let years := m.map fun e => e.2.year
    let minYear := years.foldl min (years.headD 0)
    let maxYear := years.foldl max (years.headD 0)
    ⟨m.length,
      if minYear = maxYear then intToChars minYear
      else intToChars minYear ++ '-' :: intToChars maxYear,
      (m.map fun e => e.2.numberOfOrders).sum⟩

/-! ## Characterizing the bucket fold -/

/-- The records that land in bucket k. -/
def hitsKey (k : List Char) (r : SalesRecord) : Bool := recKey r = k

/-- One folding step, viewed through the lookup of a single key. -/
def bucketStep (o : Option SalesStats) (r : SalesRecord) : Option SalesStats :=
  some (updateStats r.total (o.getD (initStats r.date.year r.date.month r.total)))

/-- Plain accumulation of a record list into one bucket value. -/
def statsAfter (s : SalesStats) (rs : List SalesRecord) : SalesStats :=
  rs.foldl (fun a r => updateStats r.total a) s

theorem findStats_append_of_none {β : Type} {m : List (List Char × β)}
    (m' : List (List Char × β)) {k : List Char} (h : findStats m k = none) :
    findStats (m ++ m') k = findStats m' k := by
  induction m with
  | nil => rfl
  | cons e m ih =>
    simp only [findStats, List.cons_append] at h ⊢
    by_cases he : e.1 = k
    · simp [he] at h
    · simpa [he] using ih (by simpa [he] using h)

theorem findStats_append_of_some {β : Type} {m : List (List Char × β)}
    (m' : List (List Char × β)) {k : List Char} {v : β} (h : findStats m k = some v) :
    findStats (m ++ m') k = some v := by
  induction m with
  | nil => simp [findStats] at h
  | cons e m ih =>
    simp only [findStats, List.cons_append] at h ⊢
    by_cases he : e.1 = k
    · simpa [he] using (by simpa [he] using h : some e.2 = some v)
    · simpa [he] using ih (by simpa [he] using h)

theorem findStats_map_update {β : Type} (m : List (List Char × β)) (key : List Char)
    (f : β → β) (k : List Char) :
    findStats (m.map fun e => if e.1 = key then (e.1, f e.2) else e) k =
      if k = key then (findStats m k).map f else findStats m k := by
  induction m with
  | nil => by_cases h : k = key <;> simp [findStats, h]
  | cons e m ih =>
    by_cases he : e.1 = key
    · by_cases hk : k = key
      · subst hk
        simp [findStats, he, List.map_cons, ih]
      · have hek : ¬ e.1 = k := fun hc => hk (hc ▸ he)
        have hke : ¬ key = k := fun hc => hek (he.trans hc)
        simp [findStats, he, hek, List.map_cons, ih, hk, hke]
    · by_cases hek : e.1 = k
      · have hk : ¬ k = key := fun hc => he (hek.trans hc)
        simp [findStats, he, hek, List.map_cons, hk]
      · simp [findStats, he, hek, List.map_cons, ih]

theorem findStats_singleton_self (k : List Char) (v : SalesStats) :
    findStats [(k, v)] k = some v := by simp [findStats]

theorem findStats_process (r : SalesRecord) (m : StatsMap) (k : List Char) :
    findStats (processSalesRecord r m) k =
      if recKey r = k then bucketStep (findStats m k) r else findStats m k := by
  unfold processSalesRecord
  cases hs : findStats m (recKey r) with
  | some s =>
    simp only [hs, Option.isSome_some, if_true]
    rw [findStats_map_update]
    by_cases hk : recKey r = k
    · subst hk
      simp [hs, bucketStep]
    · have : ¬ k = recKey r := fun hc => hk hc.symm
      simp [this, hk]
  | none =>
    simp only [hs, Option.isSome_none, Bool.false_eq_true, if_false]
    rw [findStats_map_update]
    by_cases hk : recKey r = k
    · subst hk
      rw [if_pos rfl, findStats_append_of_none _ hs, findStats_singleton_self]
      simp [bucketStep, hs]
    · have hk' : ¬ k = recKey r := fun hc => hk hc.symm
      rw [if_neg hk', if_neg hk]
      cases hv : findStats m k with
      | some v => exact findStats_append_of_some _ hv
      | none =>
        rw [findStats_append_of_none _ hv]
        simp [findStats, hk]

theorem findStats_foldl (rs : List SalesRecord) (m : StatsMap) (k : List Char) :
    findStats (rs.foldl (fun m r => processSalesRecord r m) m) k =
      (rs.filter (hitsKey k)).foldl bucketStep (findStats m k) := by
  induction rs generalizing m with
  | nil => rfl
  | cons r rs ih =>
    simp only [List.foldl_cons, List.filter_cons]
    rw [ih]
    by_cases hk : recKey r = k
    · simp [hitsKey, hk, findStats_process]
    · simp [hitsKey, hk, findStats_process]

theorem findStats_foldRecords (rs : List SalesRecord) (k : List Char) :
    findStats (foldRecords rs) k = (rs.filter (hitsKey k)).foldl bucketStep none :=
  findStats_foldl rs [] k

theorem foldl_bucketStep_some (rs : List SalesRecord) (s : SalesStats) :
    rs.foldl bucketStep (some s) = some (statsAfter s rs) := by
  induction rs generalizing s with
  | nil => rfl
  | cons r rs ih => simp [List.foldl_cons, bucketStep, statsAfter, ih, List.foldl_cons]

theorem findStats_foldRecords_of_filter_eq_nil {rs : List SalesRecord} {k : List Char}
    (h : rs.filter (hitsKey k) = []) : findStats (foldRecords rs) k = none := by
  rw [findStats_foldRecords, h]
  rfl

theorem findStats_foldRecords_of_filter_eq_cons {rs : List SalesRecord} {k : List Char}
    {r₀ : SalesRecord} {rest : List SalesRecord} (h : rs.filter (hitsKey k) = r₀ :: rest) :
    findStats (foldRecords rs) k =
      some (statsAfter (updateStats r₀.total
        (initStats r₀.date.year r₀.date.month r₀.total)) rest) := by
  rw [findStats_foldRecords, h, List.foldl_cons]
  exact foldl_bucketStep_some rest _

/-! ## Field values of an accumulated bucket -/

theorem statsAfter_year (rs : List SalesRecord) (s : SalesStats) :
    (statsAfter s rs).year = s.year := by
  induction rs generalizing s with
  | nil => rfl
  | cons r rs ih => simpa [statsAfter, List.foldl_cons, updateStats] using ih _

theorem statsAfter_month (rs : List SalesRecord) (s : SalesStats) :
    (statsAfter s rs).month = s.month := by
  induction rs generalizing s with
  | nil => rfl
  | cons r rs ih => simpa [statsAfter, List.foldl_cons, updateStats] using ih _

theorem statsAfter_orders (rs : List SalesRecord) (s : SalesStats) :
    (statsAfter s rs).numberOfOrders = s.numberOfOrders + rs.length := by
  induction rs generalizing s with
  | nil => rfl
  | cons r rs ih =>
    simp only [statsAfter, List.foldl_cons] at ih ⊢
    rw [ih]
    simp [updateStats, List.length_cons]
    omega

theorem statsAfter_totalAmount (rs : List SalesRecord) (s : SalesStats) :
    (statsAfter s rs).totalAmount = s.totalAmount + (rs.map fun r => r.total).sum := by
  induction rs generalizing s with
  | nil => simp [statsAfter]
  | cons r rs ih =>
    simp only [statsAfter, List.foldl_cons] at ih ⊢
    rw [ih]
    simp [updateStats, List.sum_cons]
    ring

theorem statsAfter_amounts (rs : List SalesRecord) (s : SalesStats) :
    (statsAfter s rs).amounts = s.amounts ++ (rs.map fun r => r.total) := by
  induction rs generalizing s with
  | nil => simp [statsAfter]
  | cons r rs ih =>
    simp only [statsAfter, List.foldl_cons] at ih ⊢
    rw [ih]
    simp [updateStats]

theorem statsAfter_maxAmount (rs : List SalesRecord) (s : SalesStats) :
    (statsAfter s rs).maxAmount = (rs.map fun r => r.total).foldl max s.maxAmount := by
  induction rs generalizing s with
  | nil => rfl
  | cons r rs ih =>
    simp only [statsAfter, List.foldl_cons] at ih ⊢
    rw [ih]
    simp [updateStats]

theorem statsAfter_minAmount (rs : List SalesRecord) (s : SalesStats) :
    (statsAfter s rs).minAmount = (rs.map fun r => r.total).foldl min s.minAmount := by
  induction rs generalizing s with
  | nil => rfl
  | cons r rs ih =>
    simp only [statsAfter, List.foldl_cons] at ih ⊢
    rw [ih]
    simp [updateStats]

/-! ## Folded maxima and minima -/

theorem le_foldl_max (ts : List ℚ) (c : ℚ) : c ≤ ts.foldl max c := by
  induction ts generalizing c with
  | nil => exact le_refl c
  | cons t ts ih => exact le_trans (le_max_left c t) (ih _)

theorem mem_le_foldl_max {a : ℚ} {ts : List ℚ} (h : a ∈ ts) (c : ℚ) :
    a ≤ ts.foldl max c := by
  induction ts generalizing c with
  | nil => cases h
  | cons t ts ih =>
    rcases List.mem_cons.mp h with h1 | h2
    · subst h1
      exact le_trans (le_max_right c a) (le_foldl_max ts _)
    · exact ih h2 _

theorem foldl_max_pull (ts : List ℚ) (c d : ℚ) :
    ts.foldl max (max c d) = max c (ts.foldl max d) := by
  induction ts generalizing d with
  | nil => rfl
  | cons t ts ih =>
    simp only [List.foldl_cons]
    rw [max_assoc, ih]

theorem foldl_max_absorb {b : ℚ} {ts : List ℚ} (h : b ∈ ts) (a : ℚ) :
    ts.foldl max (max a b) = ts.foldl max a := by
  rw [max_comm, foldl_max_pull]
  exact max_eq_right (mem_le_foldl_max h a)

theorem foldl_max_mem_congr {a b : ℚ} {ts : List ℚ} (ha : a ∈ ts) (hb : b ∈ ts) :
    ts.foldl max a = ts.foldl max b := by
  rw [← foldl_max_absorb hb a, max_comm, foldl_max_absorb ha b]

theorem foldl_min_le (ts : List ℚ) (c : ℚ) : ts.foldl min c ≤ c := by
  induction ts generalizing c with
  | nil => exact le_refl c
  | cons t ts ih => exact le_trans (ih _) (min_le_left c t)

theorem foldl_min_le_mem {a : ℚ} {ts : List ℚ} (h : a ∈ ts) (c : ℚ) :
    ts.foldl min c ≤ a := by
  induction ts generalizing c with
  | nil => cases h
  | cons t ts ih =>
    rcases List.mem_cons.mp h with h1 | h2
    · subst h1
      exact le_trans (foldl_min_le ts _) (min_le_right c a)
    · exact ih h2 _

theorem foldl_min_pull (ts : List ℚ) (c d : ℚ) :
    ts.foldl min (min c d) = min c (ts.foldl min d) := by
  induction ts generalizing d with
  | nil => rfl
  | cons t ts ih =>
    simp only [List.foldl_cons]
    rw [min_assoc, ih]

theorem foldl_min_absorb {b : ℚ} {ts : List ℚ} (h : b ∈ ts) (a : ℚ) :
    ts.foldl min (min a b) = ts.foldl min a := by
  rw [min_comm, foldl_min_pull]
  exact min_eq_right (foldl_min_le_mem h a)

theorem foldl_min_mem_congr {a b : ℚ} {ts : List ℚ} (ha : a ∈ ts) (hb : b ∈ ts) :
    ts.foldl min a = ts.foldl min b := by
  rw [← foldl_min_absorb hb a, min_comm, foldl_min_absorb ha b]

theorem foldl_perm_right_comm {f : ℚ → ℚ → ℚ}
    (hf : ∀ b a₁ a₂, f (f b a₁) a₂ = f (f b a₂) a₁) :
    ∀ {ts₁ ts₂ : List ℚ}, ts₁.Perm ts₂ → ∀ b, ts₁.foldl f b = ts₂.foldl f b := by
  intro ts₁ ts₂ h
  induction h with
  | nil => intro b; rfl
  | cons x h ih => intro b; simp only [List.foldl_cons]; exact ih _
  | swap x y l => intro b; simp only [List.foldl_cons]; rw [hf]
  | trans h₁ h₂ ih₁ ih₂ => intro b; rw [ih₁, ih₂]

/-! ## Claim C9: the running-bucket invariant -/

/-- Claim C9. For every bucket in the active bucket map, after each fold the
    invariant holds: the bucket's amounts list is exactly the totals folded
    into it so far, numberOfOrders equals its length, and every folded total
    lies between minAmount and maxAmount; moreover the first record folded
    into a fresh bucket initializes both extrema (and the whole bucket) from
    its own total. -/
theorem processSalesRecord_invariant :
    (∀ (rs : List SalesRecord) (k : List Char) (s : SalesStats),
        findStats (foldRecords rs) k = some s →
        s.amounts = ((rs.filter (hitsKey k)).map fun r => r.total) ∧
        s.numberOfOrders = s.amounts.length ∧
        ∀ t ∈ s.amounts, s.minAmount ≤ t ∧ t ≤ s.maxAmount) ∧
    ∀ (r : SalesRecord) (m : StatsMap), findStats m (recKey r) = none →
      findStats (processSalesRecord r m) (recKey r) =
        some (updateStats r.total (initStats r.date.year r.date.month r.total)) := by
  constructor
  · intro rs k s hs
    cases hf : rs.filter (hitsKey k) with
    | nil => rw [findStats_foldRecords_of_filter_eq_nil hf] at hs; cases hs
    | cons r₀ rest =>
      rw [findStats_foldRecords_of_filter_eq_cons hf] at hs
      have hs' := (Option.some_injective _ hs).symm
      subst hs'
      set s₀ := updateStats r₀.total (initStats r₀.date.year r₀.date.month r₀.total) with hs₀
      have hamounts : (statsAfter s₀ rest).amounts =
          r₀.total :: (rest.map fun r => r.total) := by
        rw [statsAfter_amounts]
        simp [hs₀, updateStats, initStats]
      refine ⟨?_, ?_, ?_⟩
      · rw [hamounts]
        simp
      · rw [hamounts, statsAfter_orders]
        simp only [hs₀, updateStats, initStats, List.length_cons, List.length_map]
        omega
      · intro t ht
        rw [hamounts] at ht
        have hmax : (statsAfter s₀ rest).maxAmount =
            (rest.map fun r => r.total).foldl max r₀.total := by
          rw [statsAfter_maxAmount]
          simp [hs₀, updateStats, initStats]
        have hmin : (statsAfter s₀ rest).minAmount =
            (rest.map fun r => r.total).foldl min r₀.total := by
          rw [statsAfter_minAmount]
          simp [hs₀, updateStats, initStats]
        rw [hmax, hmin]
        rcases List.mem_cons.mp ht with h1 | h2
        · subst h1
          exact ⟨foldl_min_le _ _, le_foldl_max _ _⟩
        · exact ⟨foldl_min_le_mem h2 _, mem_le_foldl_max h2 _⟩
  · intro r m hm
    rw [findStats_process, if_pos rfl, bucketStep, hm]
    rfl

/-- Witness for C9 at a concrete one-record input: the record with total 700
    and date 2021-03 creates bucket 2021-03 with both extrema 700. -/
theorem processSalesRecord_invariant_witness :
    ((⟨2021, 3, 1, 700, 700, 700, [700]⟩ : SalesStats).amounts =
        (([⟨1, 111111, 7, 700, ⟨2021, 3⟩⟩] : List SalesRecord).filter
          (hitsKey (monthKey 2021 3))).map (fun r => r.total) ∧
      (⟨2021, 3, 1, 700, 700, 700, [700]⟩ : SalesStats).numberOfOrders =
        (⟨2021, 3, 1, 700, 700, 700, [700]⟩ : SalesStats).amounts.length ∧
      ∀ t ∈ (⟨2021, 3, 1, 700, 700, 700, [700]⟩ : SalesStats).amounts,
        (⟨2021, 3, 1, 700, 700, 700, [700]⟩ : SalesStats).minAmount ≤ t ∧
        t ≤ (⟨2021, 3, 1, 700, 700, 700, [700]⟩ : SalesStats).maxAmount) ∧
    findStats (processSalesRecord ⟨1, 111111, 7, 700, ⟨2021, 3⟩⟩ [])
        (recKey ⟨1, 111111, 7, 700, ⟨2021, 3⟩⟩) =
      some (updateStats 700 (initStats 2021 3 700)) :=
  ⟨processSalesRecord_invariant.1 [⟨1, 111111, 7, 700, ⟨2021, 3⟩⟩] (monthKey 2021 3)
      ⟨2021, 3, 1, 700, 700, 700, [700]⟩ (by decide),
    processSalesRecord_invariant.2 ⟨1, 111111, 7, 700, ⟨2021, 3⟩⟩ [] (by decide)⟩

/-! ## Claim C10: summary accessor on the empty bucket map -/

/-- Claim C10. When the bucket map is empty (no record folded, or an input
    with zero data rows was processed), getStats returns totalMonths 0, the
    empty yearRange string and totalRecordsProcessed 0, without computing
    extrema over an empty collection. -/
theorem getStats_empty :
    getStats [] = ⟨0, [], 0⟩ ∧ getStats (foldRecords []) = ⟨0, [], 0⟩ :=
  ⟨rfl, rfl⟩

/-! ## Claim C5: finalization formulas and the concrete 2021-03 scenario -/

/-- Claim C5. At finalization, salesAverage is totalAmount divided by
    numberOfOrders and the standard deviation is the sample standard
    deviation: its square (carried as varianceB) is 0 when the bucket has at
    most one amount and otherwise the sum of squared deviations from the mean
    divided by numberOfOrders - 1. On the concrete input whose three rows all
    fall in 2021-03 with totals 600, 900 and 1200, the report holds exactly
    one row: bucket (2021, 3) with number_of_orders 3, max_amount 1200,
    min_amount 600, sales_average 900, and standard deviation 300 (the
    nonnegative square root of varianceB = 90000). -/
theorem finalize_formulas_and_scenario :
    (∀ s : SalesStats,
      (finalizeRecord s).salesAverage = s.totalAmount / (s.numberOfOrders : ℚ)) ∧
    (∀ s : SalesStats,
      (finalizeRecord s).varianceB =
        if s.amounts.length ≤ 1 then 0
        else ((s.amounts.map fun v =>
            (v - s.totalAmount / (s.numberOfOrders : ℚ)) *
              (v - s.totalAmount / (s.numberOfOrders : ℚ))).sum) /
          ((s.amounts.length : ℚ) - 1)) ∧
    reportRows
        [⟨1, 111111, 11, 600, ⟨2021, 3⟩⟩,
         ⟨2, 222222, 22, 900, ⟨2021, 3⟩⟩,
         ⟨3, 333333, 33, 1200, ⟨2021, 3⟩⟩] =
      [⟨2021, 3, 3, 1200, 600, 900, 90000⟩] ∧
    IsSqrt (90000 : ℚ) 300 := by
  refine ⟨fun s => rfl, fun s => rfl, by decide, by decide, by decide⟩

/-! ## Claim C4: the generator emits exactly T rows with ids 1..T -/

theorem generateBatch_ids (tz : ℤ) (oracle : ℕ → RecordDraws) (startId count : ℕ) :
    (generateBatch tz oracle startId count).map (fun r => r.id) =
      List.range' startId count := by
  unfold generateBatch
  rw [List.map_map]
  rw [List.range'_eq_map_range]
  rfl

theorem generateLoop_ids (tz : ℤ) (oracle : ℕ → RecordDraws) (T B : ℕ) (hB : 0 < B) :
    ∀ (fuel processed : ℕ), T - processed ≤ fuel →
      (generateLoop tz oracle T B fuel processed).map (fun r => r.id) =
        List.range' (processed + 1) (T - processed) := by
  intro fuel
  induction fuel with
  | zero =>
    intro processed h
    have : T - processed = 0 := Nat.le_zero.mp h
    rw [this]
    rfl
  | succ fuel ih =>
    intro processed h
    by_cases hp : processed < T
    · have hcbs : 0 < min B (T - processed) := by
        apply lt_min hB
        omega
      simp only [generateLoop, hp, if_true, List.map_append]
      rw [generateBatch_ids, ih (processed + min B (T - processed)) (by omega)]
      have harith : processed + min B (T - processed) + 1 =
          (processed + 1) + 1 * min B (T - processed) := by omega
      rw [harith, List.range'_append]
      congr 1
      omega
    · simp only [generateLoop, hp, if_false]
      have : T - processed = 0 := by omega
      rw [this]
      rfl

/-- Claim C4. For every positive totalRecords T and positive batchSize,
    generate writes exactly T data rows plus one header row, and the id
    sequence over the data rows is exactly 1, 2, ..., T (so the id set is
    exactly one-through-T with no gaps or repeats), whether or not batchSize
    divides T. -/
theorem generate_rows_and_ids (tz : ℤ) (oracle : ℕ → RecordDraws) (T B : ℕ)
    (hT : 0 < T) (hB : 0 < B) :
    (generateLines tz oracle T B).length = T + 1 ∧
    (generateRecords tz oracle T B).map (fun r => r.id) = List.range' 1 T := by
  have hids : (generateRecords tz oracle T B).map (fun r => r.id) = List.range' 1 T := by
    unfold generateRecords
    simpa using generateLoop_ids tz oracle T B hB T 0 (by omega)
  constructor
  · have hlen : (generateRecords tz oracle T B).length = T := by
      have := congrArg List.length hids
      rwa [List.length_map, List.length_range'] at this
    unfold generateLines
    rw [List.length_cons, List.length_map, hlen]
  · exact hids

/-- Witness for C4 at T = 5, B = 2 (batchSize not dividing T) with the
    all-zero draw oracle. -/
theorem generate_rows_and_ids_witness :
    0 < 5 ∧ 0 < 2 ∧
    (generateLines 0 (fun _ => ⟨0, 0, 0, 0, 0, 0, 0, 0, 0⟩) 5 2).length = 5 + 1 ∧
    (generateRecords 0 (fun _ => ⟨0, 0, 0, 0, 0, 0, 0, 0, 0⟩) 5 2).map (fun r => r.id) =
      List.range' 1 5 :=
  ⟨by decide, by decide,
    generate_rows_and_ids 0 (fun _ => ⟨0, 0, 0, 0, 0, 0, 0, 0, 0⟩) 5 2
      (by decide) (by decide)⟩

/-! ## Claim C7: missing input fails with NotFound before any write -/

/-- The failure taxonomy surfaced by main.ts process(): the existsSync guard
    throws the not-found error before the stream opens; any later stream or
    write failure is an I/O failure. -/
inductive ProcessFailure where
  | notFound
  | ioFailure
deriving DecidableEq

/-- The file-system state process() touches: the input store (none when the
    file does not exist) and the output store. -/
structure PipeFS where
  input : Option (List SalesRecord)
  output : Option (List SalesReportRecord)
deriving DecidableEq

/-- main.ts process() seen as a state transformer on the two stores: the
    existsSync check at lines 136-138 throws before anything is read or
    written, so on a missing input the state comes back untouched; otherwise
    the streamed fold, finalizeStats and the report write happen. -/
def processRun (fs : PipeFS) : Except ProcessFailure Unit × PipeFS :=
  match fs.input with
  | none => (Except.error ProcessFailure.notFound, fs)
  | some rows => (Except.ok (), ⟨fs.input, some (reportRows rows)⟩)

/-- Claim C7. If the input target does not exist when process is invoked, the
    run fails immediately with the NotFound condition and the file system is
    left untouched: in particular no output store is created, not even an
    empty report. -/
theorem process_missing_input (fs : PipeFS) (h : fs.input = none) :
    processRun fs = (Except.error ProcessFailure.notFound, fs) ∧
    (processRun fs).2.output = fs.output := by
  unfold processRun
  rw [h]
  exact ⟨rfl, rfl⟩

/-- Witness for C7 on the empty file system. -/
theorem process_missing_input_witness :
    (⟨none, none⟩ : PipeFS).input = none ∧
    processRun ⟨none, none⟩ = (Except.error ProcessFailure.notFound, ⟨none, none⟩) ∧
    (processRun ⟨none, none⟩).2.output = (⟨none, none⟩ : PipeFS).output :=
  ⟨rfl, process_missing_input ⟨none, none⟩ rfl⟩

/-! ## Keys of the bucket map -/

theorem map_fst_update {β : Type} (m : List (List Char × β)) (key : List Char) (f : β → β) :
    (m.map fun e => if e.1 = key then (e.1, f e.2) else e).map (fun e => e.1) =
      m.map (fun e => e.1) := by
  induction m with
  | nil => rfl
  | cons e m ih =>
    by_cases he : e.1 = key <;> simp [he, ih]

theorem keys_process (r : SalesRecord) (m : StatsMap) :
    (processSalesRecord r m).map (fun e => e.1) =
      if (findStats m (recKey r)).isSome then m.map (fun e => e.1)
      else m.map (fun e => e.1) ++ [recKey r] := by
  unfold processSalesRecord
  cases hs : findStats m (recKey r) with
  | some s =>
    simp only [hs, Option.isSome_some, if_true]
    exact map_fst_update m (recKey r) _
  | none =>
    simp only [hs, Option.isSome_none, Bool.false_eq_true, if_false]
    rw [map_fst_update, List.map_append]
    rfl

theorem findStats_eq_none_iff {β : Type} (m : List (List Char × β)) (k : List Char) :
    findStats m k = none ↔ k ∉ m.map (fun e => e.1) := by
  induction m with
  | nil => simp [findStats]
  | cons e m ih =>
    by_cases he : e.1 = k
    · constructor
      · intro h
        simp only [findStats, he, if_true] at h
        cases h
      · intro h
        exfalso
        apply h
        rw [List.map_cons]
        exact List.mem_cons.mpr (Or.inl he.symm)
    · simp only [findStats, he, if_false, List.map_cons, List.mem_cons, ih]
      constructor
      · intro h hc
        rcases hc with hc | hc
        · exact he hc.symm
        · exact h hc
      · intro h
        exact fun hc => h (Or.inr hc)

theorem keys_nodup_foldl (rs : List SalesRecord) :
    ∀ m : StatsMap, (m.map fun e => e.1).Nodup →
      ((rs.foldl (fun m r => processSalesRecord r m) m).map fun e => e.1).Nodup := by
  induction rs with
  | nil => intro m h; exact h
  | cons r rs ih =>
    intro m h
    rw [List.foldl_cons]
    apply ih
    rw [keys_process]
    cases hs : findStats m (recKey r) with
    | some s =>
      simp only [hs, Option.isSome_some, if_true]
      exact h
    | none =>
      simp only [hs, Option.isSome_none, Bool.false_eq_true, if_false]
      rw [List.nodup_append]
      refine ⟨h, List.nodup_singleton _, ?_⟩
      intro a ha hb
      rw [List.mem_singleton] at hb
      subst hb
      exact (findStats_eq_none_iff m (recKey r)).mp hs ha

theorem keys_nodup_foldRecords (rs : List SalesRecord) :
    ((foldRecords rs).map fun e => e.1).Nodup :=
  keys_nodup_foldl rs [] (by simp)

theorem findStats_eq_some_iff_mem {β : Type} {m : List (List Char × β)}
    (hnd : (m.map fun e => e.1).Nodup) (k : List Char) (v : β) :
    findStats m k = some v ↔ (k, v) ∈ m := by
  induction m with
  | nil => simp [findStats]
  | cons e m ih =>
    rw [List.map_cons, List.nodup_cons] at hnd
    by_cases he : e.1 = k
    · simp only [findStats, he, if_true, Option.some_inj, List.mem_cons]
      constructor
      · intro h
        left
        rw [← h, ← he]
      · intro h
        rcases h with h | h
        · rw [← h]
        · exfalso
          apply hnd.1
          rw [he]
          exact List.mem_map.mpr ⟨(k, v), h, rfl⟩
    · simp only [findStats, he, if_false, List.mem_cons, ih hnd.2]
      constructor
      · intro h; exact Or.inr h
      · intro h
        rcases h with h | h
        · exfalso; apply he; rw [← h]
        · exact h

theorem assoc_perm_of_lookup_eq {β : Type} {m₁ m₂ : List (List Char × β)}
    (h₁ : (m₁.map fun e => e.1).Nodup) (h₂ : (m₂.map fun e => e.1).Nodup)
    (h : ∀ k, findStats m₁ k = findStats m₂ k) : m₁.Perm m₂ := by
  rw [List.perm_ext_iff_of_nodup (h₁.of_map _) (h₂.of_map _)]
  intro a
  have ha : a = (a.1, a.2) := rfl
  rw [ha, ← findStats_eq_some_iff_mem h₁ a.1 a.2, ← findStats_eq_some_iff_mem h₂ a.1 a.2, h]

/-! ## Permutation invariance of a finalized bucket -/

theorem sampleVariance_perm {ts₁ ts₂ : List ℚ} (h : ts₁.Perm ts₂) (mean : ℚ) :
    sampleVariance ts₁ mean = sampleVariance ts₂ mean := by
  unfold sampleVariance
  rw [h.length_eq, (h.map fun v => (v - mean) * (v - mean)).sum_eq]

theorem finalizeRecord_congr {s₁ s₂ : SalesStats}
    (hy : s₁.year = s₂.year) (hm : s₁.month = s₂.month)
    (hn : s₁.numberOfOrders = s₂.numberOfOrders)
    (hmax : s₁.maxAmount = s₂.maxAmount) (hmin : s₁.minAmount = s₂.minAmount)
    (ht : s₁.totalAmount = s₂.totalAmount)
    (ha : s₁.amounts.Perm s₂.amounts) :
    finalizeRecord s₁ = finalizeRecord s₂ := by
  simp only [finalizeRecord]
  rw [hy, hm, hn, hmax, hmin, ht, sampleVariance_perm ha]

theorem statsAfter_init_fields (r₀ : SalesRecord) (rest : List SalesRecord) :
    (statsAfter (updateStats r₀.total
        (initStats r₀.date.year r₀.date.month r₀.total)) rest).year = r₀.date.year ∧
    (statsAfter (updateStats r₀.total
        (initStats r₀.date.year r₀.date.month r₀.total)) rest).month = r₀.date.month ∧
    (statsAfter (updateStats r₀.total
        (initStats r₀.date.year r₀.date.month r₀.total)) rest).numberOfOrders =
      (r₀ :: rest).length ∧
    (statsAfter (updateStats r₀.total
        (initStats r₀.date.year r₀.date.month r₀.total)) rest).totalAmount =
      ((r₀ :: rest).map fun r => r.total).sum ∧
    (statsAfter (updateStats r₀.total
        (initStats r₀.date.year r₀.date.month r₀.total)) rest).amounts =
      (r₀ :: rest).map (fun r => r.total) ∧
    (statsAfter (updateStats r₀.total
        (initStats r₀.date.year r₀.date.month r₀.total)) rest).maxAmount =
      ((r₀ :: rest).map fun r => r.total).foldl max r₀.total ∧
    (statsAfter (updateStats r₀.total
        (initStats r₀.date.year r₀.date.month r₀.total)) rest).minAmount =
      ((r₀ :: rest).map fun r => r.total).foldl min r₀.total := by
  refine ⟨?_, ?_, ?_, ?_, ?_, ?_, ?_⟩
  · rw [statsAfter_year]; rfl
  · rw [statsAfter_month]; rfl
  · rw [statsAfter_orders]
    simp only [updateStats, initStats, List.length_cons]
    omega
  · rw [statsAfter_totalAmount]
    simp only [updateStats, initStats, List.map_cons, List.sum_cons]
    ring
  · rw [statsAfter_amounts]
    simp [updateStats, initStats]
  · rw [statsAfter_maxAmount]
    simp only [updateStats, initStats, List.map_cons, List.foldl_cons, max_self]
  · rw [statsAfter_minAmount]
    simp only [updateStats, initStats, List.map_cons, List.foldl_cons, min_self]

theorem findStats_finalizeMap (m : StatsMap) (k : List Char) :
    findStats (finalizeMap m) k = (findStats m k).map finalizeRecord := by
  induction m with
  | nil => rfl
  | cons e m ih =>
    by_cases he : e.1 = k
    · simp only [finalizeMap, List.map_cons, findStats, he, if_true, Option.map_some']
    · simp only [finalizeMap, List.map_cons, findStats, he, if_false]
      exact ih

theorem filter_total_mem {k : List Char} {rs : List SalesRecord} {r : SalesRecord}
    (h : r ∈ rs.filter (hitsKey k)) :
    r.total ∈ (rs.filter (hitsKey k)).map (fun r => r.total) :=
  List.mem_map.mpr ⟨r, h, rfl⟩

theorem finalized_lookup_perm {l₁ l₂ : List SalesRecord} (hp : l₁.Perm l₂)
    (hcons : ∀ r ∈ l₁, ∀ r' ∈ l₁, recKey r = recKey r' → r.date = r'.date)
    (k : List Char) :
    findStats (finalizeMap (foldRecords l₁)) k =
      findStats (finalizeMap (foldRecords l₂)) k := by
  rw [findStats_finalizeMap, findStats_finalizeMap]
  have hfp : (l₁.filter (hitsKey k)).Perm (l₂.filter (hitsKey k)) := hp.filter _
  cases hf₁ : l₁.filter (hitsKey k) with
  | nil =>
    have hf₂ : l₂.filter (hitsKey k) = [] := by
      rw [hf₁] at hfp
      exact hfp.symm.eq_nil
    rw [findStats_foldRecords_of_filter_eq_nil hf₁,
      findStats_foldRecords_of_filter_eq_nil hf₂]
  | cons r₀ rest₁ =>
    cases hf₂ : l₂.filter (hitsKey k) with
    | nil =>
      rw [hf₁, hf₂] at hfp
      cases hfp.eq_nil
    | cons u₀ rest₂ =>
      rw [findStats_foldRecords_of_filter_eq_cons hf₁,
        findStats_foldRecords_of_filter_eq_cons hf₂]
      rw [hf₁, hf₂] at hfp
      -- both heads fold bucket k, so their dates agree
      have hr₀l : r₀ ∈ l₁ := List.mem_of_mem_filter (hf₁ ▸ List.mem_cons_self r₀ rest₁)
      have hu₀f : u₀ ∈ l₁.filter (hitsKey k) := by
        rw [hf₁]
        exact hfp.symm.subset (List.mem_cons_self u₀ rest₂)
      have hu₀l : u₀ ∈ l₁ := List.mem_of_mem_filter hu₀f
      have hkr₀ : recKey r₀ = k := by
        have := List.of_mem_filter (hf₁ ▸ List.mem_cons_self r₀ rest₁)
        simpa [hitsKey] using this
      have hku₀ : recKey u₀ = k := by
        have := List.of_mem_filter hu₀f
        simpa [hitsKey] using this
      have hdate : r₀.date = u₀.date := hcons r₀ hr₀l u₀ hu₀l (hkr₀.trans hku₀.symm)
      -- the two accumulated buckets agree field by field
      obtain ⟨hy₁, hm₁, hn₁, ht₁, ha₁, hmax₁, hmin₁⟩ := statsAfter_init_fields r₀ rest₁
      obtain ⟨hy₂, hm₂, hn₂, ht₂, ha₂, hmax₂, hmin₂⟩ := statsAfter_init_fields u₀ rest₂
      have hts : ((r₀ :: rest₁).map fun r => r.total).Perm
          ((u₀ :: rest₂).map fun r => r.total) := hfp.map _
      have hr₀mem : r₀.total ∈ (u₀ :: rest₂).map fun r => r.total := by
        apply hts.subset
        exact List.mem_map.mpr ⟨r₀, List.mem_cons_self r₀ rest₁, rfl⟩
      have hu₀mem : u₀.total ∈ (u₀ :: rest₂).map fun r => r.total :=
        List.mem_map.mpr ⟨u₀, List.mem_cons_self u₀ rest₂, rfl⟩
      apply congrArg some
      apply finalizeRecord_congr
      · rw [hy₁, hy₂, hdate]
      · rw [hm₁, hm₂, hdate]
      · rw [hn₁, hn₂, hfp.length_eq]
      · have hrc : ∀ b a₁ a₂ : ℚ, max (max b a₁) a₂ = max (max b a₂) a₁ := fun b a₁ a₂ => by
          rw [max_assoc, max_comm a₁, ← max_assoc]
        rw [hmax₁, hmax₂, foldl_perm_right_comm hrc hts r₀.total]
        exact foldl_max_mem_congr hr₀mem hu₀mem
      · have hrc : ∀ b a₁ a₂ : ℚ, min (min b a₁) a₂ = min (min b a₂) a₁ := fun b a₁ a₂ => by
          rw [min_assoc, min_comm a₁, ← min_assoc]
        rw [hmin₁, hmin₂, foldl_perm_right_comm hrc hts r₀.total]
        exact foldl_min_mem_congr hr₀mem hu₀mem
      · rw [ht₁, ht₂, hts.sum_eq]
      · rw [ha₁, ha₂]
        exact hts

/-! ## Sorting the report -/

instance : IsTotal (List Char × SalesReportRecord) (fun a b => a.1 ≤ b.1) :=
  ⟨fun a b => le_total a.1 b.1⟩

instance : IsTrans (List Char × SalesReportRecord) (fun a b => a.1 ≤ b.1) :=
  ⟨fun _ _ _ h₁ h₂ => le_trans h₁ h₂⟩

theorem sortEntries_sorted (m : List (List Char × SalesReportRecord)) :
    List.Sorted (fun a b => a.1 ≤ b.1) (sortEntries m) :=
  List.sorted_insertionSort _ m

theorem sortEntries_perm (m : List (List Char × SalesReportRecord)) :
    (sortEntries m).Perm m :=
  List.perm_insertionSort _ m

theorem keys_finalizeMap (m : StatsMap) :
    (finalizeMap m).map (fun e => e.1) = m.map (fun e => e.1) := by
  unfold finalizeMap
  rw [List.map_map]
  rfl

/-- Two sorted association lists that are permutations of each other and have
    duplicate-free keys are equal: the sort order is determined by the key and
    the key determines the entry. -/
theorem sorted_nodup_keys_unique :
    ∀ (m₁ m₂ : List (List Char × SalesReportRecord)), m₁.Perm m₂ →
      List.Sorted (fun a b => a.1 ≤ b.1) m₁ →
      List.Sorted (fun a b => a.1 ≤ b.1) m₂ →
      (m₁.map fun e => e.1).Nodup → m₁ = m₂ := by
  intro m₁
  induction m₁ with
  | nil =>
    intro m₂ hp _ _ _
    exact (hp.symm.eq_nil).symm
  | cons a t₁ ih =>
    intro m₂ hp hs₁ hs₂ hnd
    cases m₂ with
    | nil => cases hp.eq_nil
    | cons b t₂ =>
      have hab : a = b := by
        have ham : a ∈ b :: t₂ := hp.subset (List.mem_cons_self a t₁)
        have hbm : b ∈ a :: t₁ := hp.symm.subset (List.mem_cons_self b t₂)
        rcases List.mem_cons.mp ham with h₁ | h₁
        · exact h₁
        rcases List.mem_cons.mp hbm with h₂ | h₂
        · exact h₂.symm
        have hba : b.1 ≤ a.1 := (List.sorted_cons.mp hs₂).1 a h₁
        have hab' : a.1 ≤ b.1 := (List.sorted_cons.mp hs₁).1 b h₂
        have hkey : a.1 = b.1 := le_antisymm hab' hba
        exfalso
        rw [List.map_cons, List.nodup_cons] at hnd
        exact hnd.1 (List.mem_map.mpr ⟨b, h₂, hkey.symm⟩)
      subst hab
      have hnd' : (t₁.map fun e => e.1).Nodup := by
        rw [List.map_cons, List.nodup_cons] at hnd
        exact hnd.2
      rw [ih t₂ hp.cons_inv (List.sorted_cons.mp hs₁).2 (List.sorted_cons.mp hs₂).2 hnd']

/-! ## Bucket keys are injective on the valid data range -/

set_option maxHeartbeats 2000000 in
theorem monthKey_inj_aux :
    ∀ (i₁ : Fin 6) (j₁ : Fin 12) (i₂ : Fin 6) (j₂ : Fin 12),
      monthKey (2020 + ((i₁ : ℕ) : ℤ)) (1 + (j₁ : ℕ)) =
        monthKey (2020 + ((i₂ : ℕ) : ℤ)) (1 + (j₂ : ℕ)) →
      (i₁ : ℕ) = (i₂ : ℕ) ∧ (j₁ : ℕ) = (j₂ : ℕ) := by decide

theorem monthKey_inj_range {y₁ y₂ : ℤ} {m₁ m₂ : ℕ}
    (hy₁ : 2020 ≤ y₁ ∧ y₁ ≤ 2025) (hm₁ : 1 ≤ m₁ ∧ m₁ ≤ 12)
    (hy₂ : 2020 ≤ y₂ ∧ y₂ ≤ 2025) (hm₂ : 1 ≤ m₂ ∧ m₂ ≤ 12)
    (h : monthKey y₁ m₁ = monthKey y₂ m₂) : y₁ = y₂ ∧ m₁ = m₂ := by
  have e₁ : y₁ = 2020 + ((y₁ - 2020).toNat : ℤ) := by omega
  have e₂ : y₂ = 2020 + ((y₂ - 2020).toNat : ℤ) := by omega
  have f₁ : m₁ = 1 + (m₁ - 1) := by omega
  have f₂ : m₂ = 1 + (m₂ - 1) := by omega
  rw [e₁, e₂, f₁, f₂] at h
  have := monthKey_inj_aux ⟨(y₁ - 2020).toNat, by omega⟩ ⟨m₁ - 1, by omega⟩
    ⟨(y₂ - 2020).toNat, by omega⟩ ⟨m₂ - 1, by omega⟩ h
  simp only [Fin.val_mk] at this
  omega

/-! ## Claim C6: order independence of the report -/

/-- Claim C6. For every valid input store (every record's date lies in the
    data model's range: month 1..12, year 2020..2025), running process on any
    permutation of the data rows yields the same report as the original row
    order: no report value depends on the order rows are read. -/
theorem process_order_independence (l₁ l₂ : List SalesRecord) (hp : l₁.Perm l₂)
    (hvalid : ∀ r ∈ l₁, (1 ≤ r.date.month ∧ r.date.month ≤ 12) ∧
      (2020 ≤ r.date.year ∧ r.date.year ≤ 2025)) :
    reportRows l₁ = reportRows l₂ := by
  have hcons : ∀ r ∈ l₁, ∀ r' ∈ l₁, recKey r = recKey r' → r.date = r'.date := by
    intro r hr r' hr' hk
    obtain ⟨hm, hy⟩ := hvalid r hr
    obtain ⟨hm', hy'⟩ := hvalid r' hr'
    have h3 := monthKey_inj_range hy hm hy' hm' hk
    calc r.date = ⟨r.date.year, r.date.month⟩ := rfl
      _ = ⟨r'.date.year, r'.date.month⟩ := by rw [h3.1, h3.2]
      _ = r'.date := rfl
  have hnd₁ : ((finalizeMap (foldRecords l₁)).map fun e => e.1).Nodup := by
    rw [keys_finalizeMap]
    exact keys_nodup_foldRecords l₁
  have hnd₂ : ((finalizeMap (foldRecords l₂)).map fun e => e.1).Nodup := by
    rw [keys_finalizeMap]
    exact keys_nodup_foldRecords l₂
  have hperm : (finalizeMap (foldRecords l₁)).Perm (finalizeMap (foldRecords l₂)) :=
    assoc_perm_of_lookup_eq hnd₁ hnd₂ (finalized_lookup_perm hp hcons)
  unfold reportRows
  congr 1
  apply sorted_nodup_keys_unique
  · exact (sortEntries_perm _).trans (hperm.trans (sortEntries_perm _).symm)
  · exact sortEntries_sorted _
  · exact sortEntries_sorted _
  · exact (((sortEntries_perm _).map fun e => e.1).nodup_iff).mpr hnd₁

/-- Witness for C6: swapping two concrete valid rows leaves the report
    unchanged. -/
theorem process_order_independence_witness :
    ([⟨1, 111111, 5, 600, ⟨2020, 1⟩⟩, ⟨2, 222222, 6, 700, ⟨2021, 2⟩⟩] :
        List SalesRecord).Perm
      [⟨2, 222222, 6, 700, ⟨2021, 2⟩⟩, ⟨1, 111111, 5, 600, ⟨2020, 1⟩⟩] ∧
    reportRows [⟨1, 111111, 5, 600, ⟨2020, 1⟩⟩, ⟨2, 222222, 6, 700, ⟨2021, 2⟩⟩] =
      reportRows [⟨2, 222222, 6, 700, ⟨2021, 2⟩⟩, ⟨1, 111111, 5, 600, ⟨2020, 1⟩⟩] :=
  ⟨by decide,
    process_order_independence
      [⟨1, 111111, 5, 600, ⟨2020, 1⟩⟩, ⟨2, 222222, 6, 700, ⟨2021, 2⟩⟩]
      [⟨2, 222222, 6, 700, ⟨2021, 2⟩⟩, ⟨1, 111111, 5, 600, ⟨2020, 1⟩⟩]
      (by decide) (by decide)⟩

/-! ## Claim C8: report ordering -/

/-- Strict ascending order on report rows by the composite (year, month) key. -/
def reportKeyLt (a b : SalesReportRecord) : Prop :=
  a.year < b.year ∨ (a.year = b.year ∧ a.month < b.month)

/-- Counterexample to C8 as stated: statsToCSV sorts by the textual key, and
    year values of different digit lengths sort textually, not numerically. An
    input store holding a year-999 row and a year-1000 row produces a report
    whose rows are ordered (1000, 3) before (999, 3), which is not ascending
    by (year, month). -/
theorem report_sort_counterexample :
    (reportRows [⟨1, 111111, 5, 700, ⟨999, 3⟩⟩, ⟨2, 222222, 6, 700, ⟨1000, 3⟩⟩]).map
        (fun rec => (rec.year, rec.month)) = [(1000, 3), (999, 3)] ∧
    ¬ List.Chain' reportKeyLt
        (reportRows [⟨1, 111111, 5, 700, ⟨999, 3⟩⟩, ⟨2, 222222, 6, 700, ⟨1000, 3⟩⟩]) := by
  constructor
  · decide
  · intro h
    have := List.chain'_cons.mp h
    rcases this.1 with h1 | h1
    · revert h1; decide
    · rcases h1 with ⟨h1, _⟩
      revert h1; decide

set_option maxHeartbeats 4000000 in
theorem monthKey_le_aux :
    ∀ (i₁ : Fin 6) (j₁ : Fin 12) (i₂ : Fin 6) (j₂ : Fin 12),
      (monthKey (2020 + ((i₁ : ℕ) : ℤ)) (1 + (j₁ : ℕ)) ≤
          monthKey (2020 + ((i₂ : ℕ) : ℤ)) (1 + (j₂ : ℕ))) ↔
        ((i₁ : ℕ) < (i₂ : ℕ) ∨ ((i₁ : ℕ) = (i₂ : ℕ) ∧ (j₁ : ℕ) ≤ (j₂ : ℕ))) := by decide

theorem monthKey_le_range {y₁ y₂ : ℤ} {m₁ m₂ : ℕ}
    (hy₁ : 2020 ≤ y₁ ∧ y₁ ≤ 2025) (hm₁ : 1 ≤ m₁ ∧ m₁ ≤ 12)
    (hy₂ : 2020 ≤ y₂ ∧ y₂ ≤ 2025) (hm₂ : 1 ≤ m₂ ∧ m₂ ≤ 12)
    (h : monthKey y₁ m₁ ≤ monthKey y₂ m₂) :
    y₁ < y₂ ∨ (y₁ = y₂ ∧ m₁ ≤ m₂) := by
  have e₁ : y₁ = 2020 + ((y₁ - 2020).toNat : ℤ) := by omega
  have e₂ : y₂ = 2020 + ((y₂ - 2020).toNat : ℤ) := by omega
  have f₁ : m₁ = 1 + (m₁ - 1) := by omega
  have f₂ : m₂ = 1 + (m₂ - 1) := by omega
  rw [e₁, e₂, f₁, f₂] at h
  have := (monthKey_le_aux ⟨(y₁ - 2020).toNat, by omega⟩ ⟨m₁ - 1, by omega⟩
    ⟨(y₂ - 2020).toNat, by omega⟩ ⟨m₂ - 1, by omega⟩).mp h
  simp only [Fin.val_mk] at this
  omega

/-- Every entry of the bucket map records the key it is filed under and the
    calendar fields of some input record. -/
theorem foldRecords_entry_spec (l : List SalesRecord) :
    ∀ e ∈ foldRecords l, e.1 = monthKey e.2.year e.2.month ∧
      ∃ r ∈ l, r.date.year = e.2.year ∧ r.date.month = e.2.month := by
  intro e he
  have hnd := keys_nodup_foldRecords l
  have he' : (e.1, e.2) ∈ foldRecords l := he
  have hfind : findStats (foldRecords l) e.1 = some e.2 :=
    (findStats_eq_some_iff_mem hnd e.1 e.2).mpr he'
  cases hf : l.filter (hitsKey e.1) with
  | nil =>
    rw [findStats_foldRecords_of_filter_eq_nil hf] at hfind
    cases hfind
  | cons r₀ rest =>
    rw [findStats_foldRecords_of_filter_eq_cons hf] at hfind
    have he2 := (Option.some_injective _ hfind).symm
    obtain ⟨hy, hm, _⟩ := statsAfter_init_fields r₀ rest
    have hr₀f : r₀ ∈ l.filter (hitsKey e.1) := hf ▸ List.mem_cons_self r₀ rest
    have hr₀k : recKey r₀ = e.1 := by
      have := List.of_mem_filter hr₀f
      simpa [hitsKey] using this
    constructor
    · rw [← hr₀k]
      unfold recKey
      rw [he2, hy, hm]
    · exact ⟨r₀, List.mem_of_mem_filter hr₀f, by rw [he2, hy], by rw [he2, hm]⟩

/-- Transport of the entry description to the finalized map. -/
theorem finalizeMap_entry_spec (l : List SalesRecord) :
    ∀ e ∈ finalizeMap (foldRecords l), e.1 = monthKey e.2.year e.2.month ∧
      ∃ r ∈ l, r.date.year = e.2.year ∧ r.date.month = e.2.month := by
  intro e he
  obtain ⟨e', he', heq⟩ := List.mem_map.mp he
  obtain ⟨h1, r, hr, hry, hrm⟩ := foldRecords_entry_spec l e' he'
  have hy : e.2.year = e'.2.year := by rw [← heq]; rfl
  have hm : e.2.month = e'.2.month := by rw [← heq]; rfl
  have hk : e.1 = e'.1 := by rw [← heq]
  exact ⟨by rw [hk, hy, hm, h1], r, hr, by rw [hy]; exact hry, by rw [hm]; exact hrm⟩

/-- Amended claim C8. The report rows are sorted by the textual composite key;
    on stores whose dates stay in the data model's range (months 1..12, years
    2020..2025, so four-digit years of equal length) this coincides with
    strictly ascending (year, month) order. -/
theorem report_rows_sorted (l : List SalesRecord)
    (hvalid : ∀ r ∈ l, (1 ≤ r.date.month ∧ r.date.month ≤ 12) ∧
      (2020 ≤ r.date.year ∧ r.date.year ≤ 2025)) :
    List.Chain' reportKeyLt (reportRows l) := by
  unfold reportRows
  rw [List.chain'_map]
  apply List.Pairwise.chain'
  have hsorted : List.Pairwise (fun a b => a.1 ≤ b.1)
      (sortEntries (finalizeMap (foldRecords l))) :=
    sortEntries_sorted (finalizeMap (foldRecords l))
  have hnd : ((sortEntries (finalizeMap (foldRecords l))).map fun e => e.1).Nodup := by
    refine (((sortEntries_perm _).map fun e => e.1).nodup_iff).mpr ?_
    rw [keys_finalizeMap]
    exact keys_nodup_foldRecords l
  rw [List.Nodup, List.pairwise_map] at hnd
  have hpw := hsorted.and hnd
  refine hpw.imp_of_mem ?_
  intro a b ha hb hab
  obtain ⟨hle, hne⟩ := hab
  have ha' : a ∈ finalizeMap (foldRecords l) := (sortEntries_perm _).subset ha
  have hb' : b ∈ finalizeMap (foldRecords l) := (sortEntries_perm _).subset hb
  obtain ⟨hka, ra, hra, hray, hram⟩ := finalizeMap_entry_spec l a ha'
  obtain ⟨hkb, rb, hrb, hrby, hrbm⟩ := finalizeMap_entry_spec l b hb'
  obtain ⟨hma, hya⟩ := hvalid ra hra
  obtain ⟨hmb, hyb⟩ := hvalid rb hrb
  rw [hram] at hma
  rw [hray] at hya
  rw [hrbm] at hmb
  rw [hrby] at hyb
  rw [hka, hkb] at hle hne
  have hlex := monthKey_le_range hya hma hyb hmb hle
  have hstrict : ¬ (a.2.year = b.2.year ∧ a.2.month = b.2.month) := by
    intro hc
    exact hne (by rw [hc.1, hc.2])
  unfold reportKeyLt
  rcases hlex with h | ⟨h1, h2⟩
  · exact Or.inl h
  · right
    refine ⟨h1, ?_⟩
    rcases Nat.lt_or_ge a.2.month b.2.month with hlt | hge
    · exact hlt
    · exfalso
      exact hstrict ⟨h1, le_antisymm h2 hge⟩

/-- Witness for the amended C8 on a concrete two-month store. -/
theorem report_rows_sorted_witness :
    List.Chain' reportKeyLt
      (reportRows [⟨1, 111111, 5, 600, ⟨2021, 2⟩⟩, ⟨2, 222222, 6, 700, ⟨2020, 7⟩⟩]) :=
  report_rows_sorted
    [⟨1, 111111, 5, 600, ⟨2021, 2⟩⟩, ⟨2, 222222, 6, 700, ⟨2020, 7⟩⟩] (by decide)

/-! ## Claim C3: field ranges of generated records -/

/-- Every Math.random() draw of a record lies in [0, 1). -/
def ValidDraws (w : RecordDraws) : Prop :=
  (0 ≤ w.orderR ∧ w.orderR < 1) ∧ (0 ≤ w.custR ∧ w.custR < 1) ∧
  (0 ≤ w.totalR ∧ w.totalR < 1) ∧ (0 ≤ w.yearR ∧ w.yearR < 1) ∧
  (0 ≤ w.monthR ∧ w.monthR < 1) ∧ (0 ≤ w.dayR ∧ w.dayR < 1) ∧
  (0 ≤ w.hourR ∧ w.hourR < 1) ∧ (0 ≤ w.minuteR ∧ w.minuteR < 1) ∧
  (0 ≤ w.secondR ∧ w.secondR < 1)

theorem randomInt_bounds {lo hi : ℤ} {r : ℚ} (h0 : 0 ≤ r) (h1 : r < 1) (hle : lo ≤ hi) :
    lo ≤ randomInt lo hi r ∧ randomInt lo hi r ≤ hi := by
  unfold randomInt
  rw [ratFloor_eq_floor]
  have hk : (0 : ℚ) < (hi : ℚ) - (lo : ℚ) + 1 := by
    have : (lo : ℚ) ≤ (hi : ℚ) := by exact_mod_cast hle
    linarith
  have hlow : 0 ≤ ⌊r * ((hi : ℚ) - (lo : ℚ) + 1)⌋ :=
    Int.floor_nonneg.mpr (mul_nonneg h0 (le_of_lt hk))
  have hupp : ⌊r * ((hi : ℚ) - (lo : ℚ) + 1)⌋ < hi - lo + 1 := by
    rw [Int.floor_lt]
    push_cast
    calc r * ((hi : ℚ) - (lo : ℚ) + 1) < 1 * ((hi : ℚ) - (lo : ℚ) + 1) := by
          exact mul_lt_mul_of_pos_right h1 hk
      _ = (hi : ℚ) - (lo : ℚ) + 1 := one_mul _
  omega

theorem randomFloat_total_bounds {r : ℚ} (h0 : 0 ≤ r) (h1 : r < 1) :
    500 ≤ randomFloat 500 1800 r ∧ randomFloat 500 1800 r ≤ 1800 := by
  unfold randomFloat
  rw [ratFloor_eq_floor]
  have hv1 : (500 : ℚ) ≤ r * (1800 - 500) + 500 := by nlinarith
  have hv2 : r * (1800 - 500) + 500 < 1800 := by nlinarith
  have hlow : (50000 : ℤ) ≤ ⌊(r * (1800 - 500) + 500) * 100 + 1 / 2⌋ := by
    rw [Int.le_floor]
    push_cast
    nlinarith
  have hupp : ⌊(r * (1800 - 500) + 500) * 100 + 1 / 2⌋ < 180001 := by
    rw [Int.floor_lt]
    push_cast
    nlinarith
  constructor
  · rw [le_div_iff₀ (by norm_num : (0:ℚ) < 100)]
    calc (500 : ℚ) * 100 = ((50000 : ℤ) : ℚ) := by norm_num
      _ ≤ _ := by exact_mod_cast hlow
  · rw [div_le_iff₀ (by norm_num : (0:ℚ) < 100)]
    calc ((⌊(r * (1800 - 500) + 500) * 100 + 1 / 2⌋ : ℤ) : ℚ)
        ≤ ((180000 : ℤ) : ℚ) := by exact_mod_cast (by omega : ⌊(r * (1800 - 500) + 500) * 100 + 1 / 2⌋ ≤ 180000)
      _ = 1800 * 100 := by norm_num
  
theorem daysInMonth_bounds (y : ℤ) (m : ℤ) :
    1 ≤ daysInMonth y m ∧ daysInMonth y m ≤ 31 := by
  unfold daysInMonth
  split_ifs <;> norm_num

set_option maxHeartbeats 4000000 in
theorem daysFromCivil_range_aux :
    ((List.range 6).all fun i => (List.range 12).all fun j => (List.range 31).all fun k =>
      decide (18262 ≤ daysFromCivil (2020 + (i : ℤ)) (1 + (j : ℤ)) (1 + (k : ℤ)) ∧
        daysFromCivil (2020 + (i : ℤ)) (1 + (j : ℤ)) (1 + (k : ℤ)) ≤ 20453)) = true := by
  decide

theorem daysFromCivil_range {y m d : ℤ}
    (hy : 2020 ≤ y ∧ y ≤ 2025) (hm : 1 ≤ m ∧ m ≤ 12) (hd : 1 ≤ d ∧ d ≤ 31) :
    18262 ≤ daysFromCivil y m d ∧ daysFromCivil y m d ≤ 20453 := by
  have h1 := List.all_eq_true.mp daysFromCivil_range_aux (y - 2020).toNat
    (List.mem_range.mpr (by omega))
  have h2 := List.all_eq_true.mp h1 (m - 1).toNat (List.mem_range.mpr (by omega))
  have h3 := List.all_eq_true.mp h2 (d - 1).toNat (List.mem_range.mpr (by omega))
  rw [decide_eq_true_iff] at h3
  have e₁ : y = 2020 + (((y - 2020).toNat : ℕ) : ℤ) := by omega
  have e₂ : m = 1 + (((m - 1).toNat : ℕ) : ℤ) := by omega
  have e₃ : d = 1 + (((d - 1).toNat : ℕ) : ℤ) := by omega
  rw [e₁, e₂, e₃]
  exact h3

set_option maxHeartbeats 4000000 in
set_option maxRecDepth 8000 in
theorem isoYear_day_aux :
    ((List.range 2192).all fun n =>
      decide (2020 ≤ (civilFromDays (18262 + (n : ℤ))).1 ∧
        (civilFromDays (18262 + (n : ℤ))).1 ≤ 2025)) = true := by decide

theorem isoYear_day_range {D : ℤ} (h1 : 18262 ≤ D) (h2 : D ≤ 20453) :
    2020 ≤ (civilFromDays D).1 ∧ (civilFromDays D).1 ≤ 2025 := by
  have h := List.all_eq_true.mp isoYear_day_aux (D - 18262).toNat
    (List.mem_range.mpr (by omega))
  rw [decide_eq_true_iff] at h
  have eD : D = 18262 + (((D - 18262).toNat : ℕ) : ℤ) := by omega
  rw [eD]
  exact h

theorem epoch_fdiv (days t : ℤ) (h0 : 0 ≤ t) (h1 : t < 86400) :
    (86400 * days + t).fdiv 86400 = days := by
  rw [Int.fdiv_eq_ediv _ (by norm_num), add_comm,
    Int.add_mul_ediv_left t days (by norm_num : (86400 : ℤ) ≠ 0),
    Int.ediv_eq_zero_of_lt h0 h1]
  omega

/-- Amended claim C3. The totals are always in [500, 1800]; and when the
    execution timezone is UTC (offset 0 minutes), the year of every record's
    serialized UTC timestamp lies in [2020, 2025]. (The timezone hypothesis is
    necessary: randomDate builds the Date with the local-time constructor and
    serializes with the UTC toISOString, so a nonzero offset shifts boundary
    timestamps out of the range.) -/
theorem generated_record_ranges (w : RecordDraws) (hw : ValidDraws w) :
    500 ≤ randomFloat 500 1800 w.totalR ∧ randomFloat 500 1800 w.totalR ≤ 1800 ∧
    2020 ≤ isoYear (randomDateEpoch 0 w) ∧ isoYear (randomDateEpoch 0 w) ≤ 2025 := by
  obtain ⟨-, -, ⟨ht0, ht1⟩, ⟨hy0, hy1⟩, ⟨hm0, hm1⟩, ⟨hd0, hd1⟩,
    ⟨hh0, hh1⟩, ⟨hmi0, hmi1⟩, ⟨hs0, hs1⟩⟩ := hw
  obtain ⟨htb1, htb2⟩ := randomFloat_total_bounds ht0 ht1
  refine ⟨htb1, htb2, ?_⟩
  have hyear := randomInt_bounds hy0 hy1 (by norm_num : (2020 : ℤ) ≤ 2025)
  have hmonth := randomInt_bounds hm0 hm1 (by norm_num : (1 : ℤ) ≤ 12)
  have hdaysIM := daysInMonth_bounds (randomInt 2020 2025 w.yearR) (randomInt 1 12 w.monthR)
  have hday := randomInt_bounds hd0 hd1 hdaysIM.1
  have hhour := randomInt_bounds hh0 hh1 (by norm_num : (0 : ℤ) ≤ 23)
  have hminute := randomInt_bounds hmi0 hmi1 (by norm_num : (0 : ℤ) ≤ 59)
  have hsecond := randomInt_bounds hs0 hs1 (by norm_num : (0 : ℤ) ≤ 59)
  have hdays := daysFromCivil_range ⟨hyear.1, hyear.2⟩ ⟨hmonth.1, hmonth.2⟩
    ⟨hday.1, le_trans hday.2 hdaysIM.2⟩
  have hepoch : randomDateEpoch 0 w =
      86400 * daysFromCivil (randomInt 2020 2025 w.yearR) (randomInt 1 12 w.monthR)
        (randomInt 1 (daysInMonth (randomInt 2020 2025 w.yearR) (randomInt 1 12 w.monthR)) w.dayR) +
      (3600 * randomInt 0 23 w.hourR + 60 * randomInt 0 59 w.minuteR +
        randomInt 0 59 w.secondR) := by
    unfold randomDateEpoch fieldsToEpoch
    ring
  unfold isoYear
  rw [hepoch, epoch_fdiv _ _ (by omega) (by omega)]
  exact isoYear_day_range hdays.1 hdays.2

/-- Witness for the amended C3 at the all-zero draws (record dated local
    2020-01-01T00:00:00, offset 0). -/
theorem generated_record_ranges_witness :
    ValidDraws ⟨0, 0, 0, 0, 0, 0, 0, 0, 0⟩ ∧
    (500 ≤ randomFloat 500 1800 (0 : ℚ) ∧ randomFloat 500 1800 (0 : ℚ) ≤ 1800 ∧
      2020 ≤ isoYear (randomDateEpoch 0 ⟨0, 0, 0, 0, 0, 0, 0, 0, 0⟩) ∧
      isoYear (randomDateEpoch 0 ⟨0, 0, 0, 0, 0, 0, 0, 0, 0⟩) ≤ 2025) :=
  ⟨by unfold ValidDraws; norm_num,
    generated_record_ranges ⟨0, 0, 0, 0, 0, 0, 0, 0, 0⟩ (by unfold ValidDraws; norm_num)⟩

/-- Counterexample to C3 as stated: in a UTC+1 runtime (offset 60 minutes),
    the all-zero draws make generateBatch emit a record whose serialized UTC
    timestamp is 2019-12-31T23:00:00.000Z, whose year 2019 is outside
    [2020, 2025]. -/
theorem generated_record_year_counterexample :
    (mkRecord 60 (fun _ => ⟨0, 0, 0, 0, 0, 0, 0, 0, 0⟩) 1).date =
      "2019-12-31T23:00:00.000Z".data ∧
    isoYear (randomDateEpoch 60 ⟨0, 0, 0, 0, 0, 0, 0, 0, 0⟩) = 2019 ∧
    ¬ (2020 ≤ isoYear (randomDateEpoch 60 ⟨0, 0, 0, 0, 0, 0, 0, 0, 0⟩)) := by
  refine ⟨by decide, by decide, by decide⟩

/-! ## Claim C2: rendering of the total field -/

/-- Counterexample to C2 as stated: recordsToCSV interpolates the raw number,
    so a total of 1234.5 is rendered as "1234.5", not "1234.50". The draw
    734.5/1300 makes randomFloat produce exactly 1234.5. -/
theorem total_two_decimals_counterexample :
    (mkRecord 0 (fun _ => ⟨0, 0, 734.5 / 1300, 0, 0, 0, 0, 0, 0⟩) 1).total = 1234.5 ∧
    recordsToCSV [mkRecord 0 (fun _ => ⟨0, 0, 734.5 / 1300, 0, 0, 0, 0, 0, 0⟩) 1] false =
      "1,100000,1,1234.5,2020-01-01T00:00:00.000Z\n".data ∧
    recordsToCSV [mkRecord 0 (fun _ => ⟨0, 0, 734.5 / 1300, 0, 0, 0, 0, 0, 0⟩) 1] false ≠
      "1,100000,1,1234.50,2020-01-01T00:00:00.000Z\n".data := by
  refine ⟨by decide, by decide, by decide⟩

theorem randomFloat_cents_shape {r : ℚ} (h0 : 0 ≤ r) (h1 : r < 1) :
    ∃ n : ℕ, randomFloat 500 1800 r = (n : ℚ) / 100 ∧
      ratToChars (randomFloat 500 1800 r) =
        (if n % 100 = 0 then natToChars (n / 100)
         else if n % 10 = 0 then natToChars (n / 100) ++ '.' :: natToChars (n / 10 % 10)
         else natToChars (n / 100) ++ '.' ::
           (natToChars (n / 10 % 10) ++ natToChars (n % 10))) := by
  have hz : 0 ≤ ratFloor ((r * (1800 - 500) + 500) * 100 + 1 / 2) := by
    rw [ratFloor_eq_floor]
    apply Int.floor_nonneg.mpr
    nlinarith
  set z := ratFloor ((r * (1800 - 500) + 500) * 100 + 1 / 2) with hzdef
  have hcast : ((z.toNat : ℕ) : ℚ) = (z : ℚ) := by
    exact_mod_cast congrArg (Int.cast : ℤ → ℚ) (Int.toNat_of_nonneg hz)
  have hq : randomFloat 500 1800 r = ((z.toNat : ℕ) : ℚ) / 100 := by
    unfold randomFloat
    rw [hcast, ← hzdef]
  have hq100 : randomFloat 500 1800 r * 100 = ((z.toNat : ℕ) : ℚ) := by
    rw [hq]
    field_simp
  refine ⟨z.toNat, hq, ?_⟩
  unfold ratToChars
  rw [hq100, Rat.num_natCast, Int.toNat_natCast]

/-- Amended claim C2. Every record written by generate has a total that is an
    exact multiple of 0.01 in cents n, and the total field of its serialized
    data line is the default JS rendering of that value: trailing fractional
    zeros are stripped, so the field shows the integer part alone when n is a
    multiple of 100, one decimal digit when n is a multiple of 10, and two
    decimal digits otherwise (at most two decimal digits in every case; a
    value such as 1234.5 appears as "1234.5", not "1234.50"). -/
theorem total_rendering_amended (tz : ℤ) (oracle : ℕ → RecordDraws) (i : ℕ)
    (h0 : 0 ≤ (oracle i).totalR) (h1 : (oracle i).totalR < 1) :
    ∃ n : ℕ,
      (mkRecord tz oracle i).total = (n : ℚ) / 100 ∧
      recordLine (mkRecord tz oracle i) =
        natToChars i ++ ',' :: intToChars (mkRecord tz oracle i).order_id ++
          ',' :: intToChars (mkRecord tz oracle i).customer_id ++
          ',' :: (if n % 100 = 0 then natToChars (n / 100)
             else if n % 10 = 0 then natToChars (n / 100) ++ '.' :: natToChars (n / 10 % 10)
             else natToChars (n / 100) ++ '.' ::
               (natToChars (n / 10 % 10) ++ natToChars (n % 10))) ++
          ',' :: (mkRecord tz oracle i).date ++ ['\n'] := by
  obtain ⟨n, hn, hrender⟩ := randomFloat_cents_shape h0 h1
  refine ⟨n, hn, ?_⟩
  unfold recordLine
  rw [← hrender]
  rfl

/-- Witness for the amended C2 at the draw that yields total 1234.5. -/
theorem total_rendering_amended_witness :
    (0 : ℚ) ≤ 734.5 / 1300 ∧ (734.5 / 1300 : ℚ) < 1 ∧
    (∃ n : ℕ,
      (mkRecord 0 (fun _ => ⟨0, 0, 734.5 / 1300, 0, 0, 0, 0, 0, 0⟩) 1).total = (n : ℚ) / 100 ∧
      recordLine (mkRecord 0 (fun _ => ⟨0, 0, 734.5 / 1300, 0, 0, 0, 0, 0, 0⟩) 1) =
        natToChars 1 ++ ',' :: intToChars
            (mkRecord 0 (fun _ => ⟨0, 0, 734.5 / 1300, 0, 0, 0, 0, 0, 0⟩) 1).order_id ++
          ',' :: intToChars
            (mkRecord 0 (fun _ => ⟨0, 0, 734.5 / 1300, 0, 0, 0, 0, 0, 0⟩) 1).customer_id ++
          ',' :: (if n % 100 = 0 then natToChars (n / 100)
             else if n % 10 = 0 then natToChars (n / 100) ++ '.' :: natToChars (n / 10 % 10)
             else natToChars (n / 100) ++ '.' ::
               (natToChars (n / 10 % 10) ++ natToChars (n % 10))) ++
          ',' :: (mkRecord 0 (fun _ => ⟨0, 0, 734.5 / 1300, 0, 0, 0, 0, 0, 0⟩) 1).date ++
          ['\n']) :=
  ⟨by norm_num, by norm_num,
    total_rendering_amended 0 (fun _ => ⟨0, 0, 734.5 / 1300, 0, 0, 0, 0, 0, 0⟩) 1
      (by norm_num) (by norm_num)⟩

/-! ## Claim C1: what a malformed row does to the bucket map

Row parsing in the data handler (main.ts lines 148-169) uses parseInt,
parseFloat and the Date constructor. None of these throw on malformed text in
JS: the parse functions return NaN and an unparseable date yields an Invalid
Date whose getFullYear()/getMonth() are NaN. The definitions below embed that
NaN behaviour, with none standing for NaN. -/

/-- A JS number that may be NaN (none). -/
abbrev JSNum := Option ℚ

/-- NaN-propagating addition. -/
def jsAdd : JSNum → JSNum → JSNum
  | some a, some b => some (a + b)
  | _, _ => none

/-- NaN-propagating Math.max. -/
def jsMax : JSNum → JSNum → JSNum
  | some a, some b => some (max a b)
  | _, _ => none

/-- NaN-propagating Math.min. -/
def jsMin : JSNum → JSNum → JSNum
  | some a, some b => some (min a b)
  | _, _ => none

/-- Decimal digit test. -/
def isDigit (c : Char) : Bool := '0' ≤ c && c ≤ '9'

/-- Consume a leading run of decimal digits, returning their value and the
    remaining characters. -/
def digitsSpan : List Char → ℕ → ℕ × List Char
  | [], acc => (acc, [])
  | c :: cs, acc =>
    if isDigit c then digitsSpan cs (10 * acc + (c.toNat - 48)) else (acc, c :: cs)

/-- Value of the fractional digits after the decimal point. -/
def fracDigits : List Char → ℚ → ℚ → ℚ
  | [], _, acc => acc
  | c :: cs, scale, acc =>
    if isDigit c then
      fracDigits cs (scale / 10) (acc + ((c.toNat - 48 : ℕ) : ℚ) * (scale / 10))
    else acc

/-- JS parseFloat on the nonnegative decimal literals this pipeline carries:
    the longest numeric prefix is parsed; text with no leading digit gives
    NaN (none) — parseFloat never throws. -/
def jsParseFloat (s : List Char) : Option ℚ :=
  match s with
  | [] => none
  | c :: _ =>
    if isDigit c then
      let p := digitsSpan s 0
      match p.2 with
      | '.' :: fs => some ((p.1 : ℚ) + fracDigits fs 1 0)
      | _ => some ((p.1 : ℚ))
    else none

/-- JS parseInt (radix 10, nonnegative): the leading digit run, NaN (none) if
    the text does not start with a digit — parseInt never throws. -/
def jsParseInt (s : List Char) : Option ℤ :=
  match s with
  | [] => none
  | c :: _ => if isDigit c then some (((digitsSpan s 0).1 : ℕ) : ℤ) else none

/-- Reduced model of the platform's ISO-8601 Date parsing, keeping only the
    (getFullYear(), getMonth()) pair the processor reads (UTC runtime). Text
    that is not a calendar-plausible ISO prefix yields an Invalid Date, whose
    calendar accessors are NaN (none) — the Date constructor never throws. -/
def jsParseDate (s : List Char) : Option (ℤ × ℕ) :=
  match s with
  | y1 :: y2 :: y3 :: y4 :: '-' :: m1 :: m2 :: '-' :: d1 :: d2 :: _ =>
    if isDigit y1 && isDigit y2 && isDigit y3 && isDigit y4 && isDigit m1 && isDigit m2 &&
        isDigit d1 && isDigit d2 then
      let mm := 10 * (m1.toNat - 48) + (m2.toNat - 48)
      let dd := 10 * (d1.toNat - 48) + (d2.toNat - 48)
      if 1 ≤ mm ∧ mm ≤ 12 ∧ 1 ≤ dd ∧ dd ≤ 31 then
        some ((((10 * (10 * (10 * (y1.toNat - 48) + (y2.toNat - 48)) + (y3.toNat - 48)) +
          (y4.toNat - 48) : ℕ) : ℤ), mm - 1))
      else none
    else none
  | _ => none

/-- One raw CSV data row as the csv-parser delivers it to the data handler:
    the five column texts. -/
structure RawRow where
  id : List Char
  order_id : List Char
  customer_id : List Char
  total : List Char
  date : List Char

/-- The parsed record the data handler builds (main.ts lines 150-156); any
    field may be NaN. -/
structure JSRecord where
  id : Option ℤ
  order_id : Option ℤ
  customer_id : Option ℤ
  total : JSNum
  date : List Char

/-- Bucket statistics over possibly-NaN numbers. -/
structure JSStats where
  year : Option ℤ
  month : Option ℤ
  numberOfOrders : ℕ
  maxAmount : JSNum
  minAmount : JSNum
  totalAmount : JSNum
  amounts : List JSNum
deriving DecidableEq

/-- Template interpolation of a possibly-NaN integer: NaN prints "NaN". -/
def jsOptToChars : Option ℤ → List Char
  | some i => intToChars i
  | none => "NaN".data

/-- padStart(2, "0") on an already-rendered string. -/
def padStart2 (s : List Char) : List Char :=
  if s.length < 2 then '0' :: s else s

def initStatsJS (y mo : Option ℤ) (t : JSNum) : JSStats :=
  ⟨y, mo, 0, t, t, some 0, []⟩

def updateStatsJS (t : JSNum) (s : JSStats) : JSStats :=
  { s with
    numberOfOrders := s.numberOfOrders + 1
    totalAmount := jsAdd s.totalAmount t
    maxAmount := jsMax s.maxAmount t
    minAmount := jsMin s.minAmount t
    amounts := s.amounts ++ [t] }

/-- main.ts processSalesRecord over possibly-NaN fields: getFullYear() and
    getMonth() + 1 of the (possibly invalid) date, the interpolated key, lazy
    bucket creation, in-place update. -/
def processSalesRecordJS (r : JSRecord) (m : List (List Char × JSStats)) :
    List (List Char × JSStats) :=
  let pd := jsParseDate r.date
  let year : Option ℤ := pd.map fun p => p.1
  let month : Option ℤ := pd.map fun p => ((p.2 : ℕ) : ℤ) + 1
  let key := jsOptToChars year ++ '-' :: padStart2 (jsOptToChars month)
  let m1 := if (findStats m key).isSome then m
            else m ++ [(key, initStatsJS year month r.total)]
  m1.map (fun e => if e.1 = key then (e.1, updateStatsJS r.total e.2) else e)

/-- The data handler of main.ts process() (lines 148-169) for one row: build
    the record with parseInt/parseFloat — which return NaN rather than
    throwing, so the surrounding try/catch never fires on a malformed field —
    then fold it into the bucket map and count it processed. -/
def dataStep (row : RawRow) (m : List (List Char × JSStats)) :
    List (List Char × JSStats) :=
  let record : JSRecord :=
    ⟨jsParseInt row.id, jsParseInt row.order_id, jsParseInt row.customer_id,
      jsParseFloat row.total, row.date⟩
  processSalesRecordJS record m

/-- Claim C1 is contradicted by the code. Evaluating the embedded data
    handler at the row "1,2,3,abc,2021-03-15T10:00:00.000Z" — whose total
    field fails to parse as a number — shows the row is NOT skipped: parseInt
    and parseFloat return NaN instead of throwing, the try/catch never fires,
    and the record is folded into bucket 2021-03, which ends with
    numberOfOrders 1, NaN totalAmount and extrema, and the NaN amount
    retained. -/
theorem malformed_row_is_folded :
    dataStep ⟨"1".data, "2".data, "3".data, "abc".data,
        "2021-03-15T10:00:00.000Z".data⟩ [] =
      [("2021-03".data, ⟨some 2021, some 3, 1, none, none, none, [none]⟩)] ∧
    (findStats (dataStep ⟨"1".data, "2".data, "3".data, "abc".data,
        "2021-03-15T10:00:00.000Z".data⟩ []) "2021-03".data).map
      (fun s => s.numberOfOrders) = some 1 := by
  refine ⟨by decide, by decide⟩
